import Mathlib

/-!
Verification development for the client-side static-blog engine
(`blog/assets/blog.js`, latest revision). The JavaScript functions are
shallowly embedded as executable Lean definitions over `String`,
represented through its list of characters wherever the code indexes,
slices or scans, so that every definition reduces in the kernel.
-/

namespace BlogJs

/-- Trim whitespace from both ends of a character list. -/
def trimL (l : List Char) : List Char :=
  ((l.dropWhile Char.isWhitespace).reverse.dropWhile Char.isWhitespace).reverse

/-- JS `String.prototype.trim`. -/
def jsTrim (s : String) : String := String.mk (trimL s.data)

/-- JS `String.prototype.trimStart`. -/
def jsTrimStart (s : String) : String :=
  String.mk (s.data.dropWhile Char.isWhitespace)

/-- JS `String.prototype.toLowerCase` (character-wise embedding). -/
def jsLower (s : String) : String := String.mk (s.data.map Char.toLower)

/-- JS `String.prototype.split` with a single-character separator. -/
def splitCh (sep : Char) : List Char → List (List Char)
  | [] => [[]]
  | c :: cs =>
      match splitCh sep cs with
      | [] => [[]]
      | h :: t => if c = sep then [] :: h :: t else (c :: h) :: t

/-- JS `s.split(sep)` for a one-character separator string. -/
def jsSplit (s : String) (sep : Char) : List String :=
  (splitCh sep s.data).map String.mk

/-- JS `Array.prototype.join` on an array of strings. -/
def jsJoin (sep : String) (l : List String) : String :=
  String.mk ((l.map String.data).intersperse sep.data).flatten

/-- First index at which `needle` occurs contiguously in `hay`,
JS `indexOf` without a `fromIndex`. -/
def findSub (hay needle : List Char) : Option Nat :=
  match hay with
  | [] => if needle.isEmpty then some 0 else none
  | c :: cs =>
      if needle.isPrefixOf (c :: cs) then some 0
      else (findSub cs needle).map (· + 1)

/-- JS `hay.indexOf(needle, from)`: first occurrence index that is `≥ from`. -/
def findSubFrom (hay needle : List Char) (start : Nat) : Option Nat :=
  (findSub (hay.drop start) needle).map (· + start)

/-- JS `String.prototype.includes`. -/
def jsIncludes (hay needle : String) : Bool :=
  (findSub hay.data needle.data).isSome

/-- A frontmatter metadata value: scalar string or list of strings. -/
inductive FmValue where
  | str (s : String)
  | list (l : List String)
  deriving DecidableEq, Repr

/-- Metadata object: association list in JS-object insertion order. -/
abbrev FmMeta := List (String × FmValue)

/-- JS object property write `meta[k] = v`: overwrite in place, else append. -/
def objSet (m : FmMeta) (k : String) (v : FmValue) : FmMeta :=
  match m with
  | [] => [(k, v)]
  | (k', v') :: rest =>
      if k' = k then (k, v) :: rest else (k', v') :: objSet rest k v

/-- JS object property read `meta[k]` (first — and, for objects built via
`objSet`, only — binding of the key). -/
def objGet (m : FmMeta) (k : String) : Option FmValue :=
  match m with
  | [] => none
  | (k', v') :: rest => if k' = k then some v' else objGet rest k

/-- The bracket-value branch of `parseFrontmatter`:
`v.slice(1,-1).split(',').map(s=>s.trim()).filter(Boolean)`. -/
def parseListVal (v : String) : List String :=
  ((jsSplit (String.mk ((v.data.drop 1).dropLast)) ',').map jsTrim).filter
    (· ≠ "")

/-- Checks `v.startsWith('[') && v.endsWith(']')` on the character list. -/
def bracketed (v : String) : Bool :=
  match v.data, v.data.getLast? with
  | '[' :: _, some ']' => true
  | _, _ => false

/-- One iteration of the `fm.split('\n').forEach(...)` loop body of
`parseFrontmatter`, returning the key/value pair it stores (or `none`
for a colon-less line, which the code skips). -/
def lineEntry (line : String) : Option (String × FmValue) :=
  match line.data.findIdx? (· = ':') with
  | none => none
  | some idx =>
      let k := jsTrim (String.mk (line.data.take idx))
      let v := jsTrim (String.mk (line.data.drop (idx + 1)))
      if bracketed v then some (k, FmValue.list (parseListVal v))
      else some (k, FmValue.str v)

/-- Effect of one frontmatter line on the metadata object. -/
def parseLine (m : FmMeta) (line : String) : FmMeta :=
  match lineEntry line with
  | none => m
  | some (k, v) => objSet m k v

/-- Embedding of `parseFrontmatter(md)` from `blog/assets/blog.js`:
returns the metadata object and the body. -/
def parseFrontmatter (md : String) : FmMeta × String :=
  if ("---".data.isPrefixOf md.data) = false then ([], md)
  else
    match findSubFrom md.data "\n---".data 3 with
    | none => ([], md)
    | some e =>
        let fm := jsTrim (String.mk ((md.data.drop 3).take (e - 3)))
        let body := jsTrimStart (String.mk (md.data.drop (e + 4)))
        (((jsSplit fm '\n').foldl parseLine []), body)

/-- The heterogeneous `tags` input of `normalizeTags`: absent/undefined,
a scalar string, or an array of strings. -/
inductive TagsInput where
  | undef
  | scalar (s : String)
  | list (l : List String)
  deriving DecidableEq, Repr

/-- Embedding of `normalizeTags(tags)`: `!tags` is true exactly for the
absent input and the empty scalar string; an array input is returned
unchanged; a (truthy) scalar is split on commas, trimmed and filtered. -/
def normalizeTags : TagsInput → List String
  | TagsInput.undef => []
  | TagsInput.scalar s =>
      if s = "" then []
      else ((jsSplit s ',').map jsTrim).filter (· ≠ "")
  | TagsInput.list l => l

/-- A `PostSummary` record from the published index, with the fields the
index page reads; `excerpt` is optional (`undefined` when absent). -/
structure Post where
  title : String
  excerpt : Option String
  tags : TagsInput
  slug : String
  deriving DecidableEq, Repr

/-- Truthiness of a frontmatter value: the empty string is falsy, every
array (even the empty one) is truthy. -/
def fmTruthy : FmValue → Bool
  | FmValue.str s => s ≠ ""
  | FmValue.list _ => true

/-- JS string conversion of a frontmatter value (arrays join on commas). -/
def fmToString : FmValue → String
  | FmValue.str s => s
  | FmValue.list l => jsJoin "," l

/-- Coerces a metadata lookup result into the input type of
`normalizeTags` (an absent key is `undefined`). -/
def fmTags : Option FmValue → TagsInput
  | none => TagsInput.undef
  | some (FmValue.str s) => TagsInput.scalar s
  | some (FmValue.list l) => TagsInput.list l

/-- The search haystack of `applyFilter`:
`[p.title, p.excerpt, normalizeTags(p.tags).join(' ')].join(' ')`.
`Array.prototype.join` renders an `undefined` element as the empty
string, so a missing excerpt contributes `""`, never `"undefined"`. -/
def postHay (p : Post) : String :=
  jsJoin " " [p.title, p.excerpt.getD "", jsJoin " " (normalizeTags p.tags)]

/-- Embedding of the `applyFilter` closure of `pageIndex`: the filtered
post list it renders, as a function of the search input's value. -/
def applyFilter (posts : List Post) (searchValue : String) : List Post :=
  let q := jsLower (jsTrim searchValue)
  if q = "" then posts
  else posts.filter (fun p => jsIncludes (jsLower (postHay p)) q)

/-- One `counts.set(key, (counts.get(key) || 0) + 1)` step on the
insertion-ordered map of `buildTagCounts`. -/
def bump (m : List (String × Nat)) (k : String) : List (String × Nat) :=
  match m with
  | [] => [(k, 1)]
  | (k', c) :: rest =>
      if k' = k then (k', c + 1) :: rest else (k', c) :: bump rest k

/-- The `Map` built by `buildTagCounts` before sorting, in insertion
(first-seen) order. -/
def tagCountsMap (posts : List Post) : List (String × Nat) :=
  posts.foldl (fun m p => (normalizeTags p.tags).foldl bump m) []

/-- Embedding of `buildTagCounts(posts)`: entries of the count map,
stable-sorted by the comparator `(a,b) => b[1] - a[1]` (descending
count, insertion order preserved among ties). -/
def buildTagCounts (posts : List Post) : List (String × Nat) :=
  (tagCountsMap posts).mergeSort (fun a b => Nat.ble b.2 a.2)

/-- A chip in the tag navigation bar: the "all posts" entry or one tag. -/
inductive Chip where
  | all
  | tagChip (tag : String) (count : Nat)
  deriving DecidableEq, Repr

/-- The chip list `renderTagbar` appends into `#tagbar` (when present):
the "전체" (all-posts) chip first, then `buildTagCounts(...).slice(0, 12)`. -/
def tagbarChips (allPosts : List Post) : List Chip :=
  Chip.all ::
    ((buildTagCounts allPosts).take 12).map (fun e => Chip.tagChip e.1 e.2)

/-- Cache mode of a `fetch` call: the browser default, or `no-store`. -/
inductive CacheMode where
  | browserDefault
  | noStore
  deriving DecidableEq, Repr

/-- A network request descriptor issued through `fetch`. -/
structure FetchRequest where
  url : String
  cache : CacheMode
  deriving DecidableEq, Repr

/-- The parsed index payload; `posts` is optional (`index.posts || []`). -/
structure IndexPayload where
  posts : Option (List Post)
  deriving DecidableEq, Repr

/-- Abstraction of the response `loadIndex` observes: HTTP success flag
and the structured payload (`none` when the body is not parseable). -/
structure IndexResponse where
  ok : Bool
  payload : Option IndexPayload
  deriving DecidableEq, Repr

/-- The single failure kind of the index provider (`LoadError`). -/
inductive LoadError where
  | indexLoadFailed
  deriving DecidableEq, Repr

/-- The one request `loadIndex` (latest revision) issues:
`fetch('/blog/posts/index.json')`, with no `cache` option. -/
def loadIndexRequest : FetchRequest :=
  { url := "/blog/posts/index.json", cache := CacheMode.browserDefault }

/-- All requests a single `loadIndex` call issues (it never retries). -/
def loadIndexRequests : List FetchRequest := [loadIndexRequest]

/-- Embedding of `loadIndex()`: throws on non-ok status, then parses the
body (`res.json()`), which rejects when the payload is unstructured. -/
def loadIndex (resp : IndexResponse) : Except LoadError IndexPayload :=
  if resp.ok = false then Except.error LoadError.indexLoadFailed
  else
    match resp.payload with
    | none => Except.error LoadError.indexLoadFailed
    | some p => Except.ok p

/-- Observable effects of the page controllers, in program order. -/
inductive Effect where
  | fetchIndex (cache : CacheMode)
  | fetchDoc (slug : String) (cache : CacheMode)
  | notice (text : String)
  | setTitle (t : String)
  | setDate (d : String)
  | setTags (tags : List String)
  | setContent (html : String)
  | lazyImages
  | renderChips (chips : List Chip)
  | renderCards (posts : List Post)
  | setCount (n : Nat)
  | beacon (path : String)
  deriving DecidableEq, Repr

/-- Whether an effect is the analytics beacon (`trackPage`'s fetch). -/
def Effect.isBeacon : Effect → Bool
  | Effect.beacon _ => true
  | _ => false

/-- Notice text rendered when no post is specified
(`글이 지정되지 않았습니다.`). -/
def noticeNoPost : String := "글이 지정되지 않았습니다."

/-- Notice text rendered when the document retrieval fails
(`글을 불러오지 못했습니다.`). -/
def noticeLoadFailed : String := "글을 불러오지 못했습니다."

/-- Abstraction of the response to the post-document fetch. -/
structure DocResponse where
  ok : Bool
  body : String
  deriving DecidableEq, Repr

/-- Embedding of `pagePost()` (latest revision) as its effect trace.
`slug` is `URLSearchParams.get('slug')` (`none` when absent; the empty
string is falsy and also takes the "no post" branch); `resp` gives the
response to the document fetch; `render` is the external
markdown-to-markup renderer; `fmtD` is the locale date formatter. -/
def pagePost (slug : Option String) (resp : String → DocResponse)
    (render : String → String) (fmtD : String → String) : List Effect :=
  match slug with
  | none => [Effect.notice noticeNoPost]
  | some s =>
      if s = "" then [Effect.notice noticeNoPost]
      else
        let r := resp s
        if r.ok = false then
          [Effect.fetchDoc s CacheMode.browserDefault,
           Effect.notice noticeLoadFailed]
        else
          let pm := parseFrontmatter r.body
          let title :=
            match objGet pm.1 "title" with
            | some v => if fmTruthy v then fmToString v else s
            | none => s
          let date :=
            match objGet pm.1 "date" with
            | some v => if fmTruthy v then fmtD (fmToString v) else ""
            | none => ""
          [Effect.fetchDoc s CacheMode.browserDefault,
           Effect.setTitle title,
           Effect.setDate date,
           Effect.setTags (normalizeTags (fmTags (objGet pm.1 "tags"))),
           Effect.setContent (render pm.2),
           Effect.lazyImages]

/-- Embedding of `pageIndex()` (latest revision) as its effect trace on
a successful index load: fetch the index, render the tag bar from the
full collection, apply the tag filter then the search filter, render
cards and the count, and finally `trackPage()` — the beacon carrying
`location.pathname`. -/
def pageIndexTrace (path : String) (idx : IndexPayload)
    (tag : Option String) (searchValue : String) : List Effect :=
  let posts := idx.posts.getD []
  let tagged :=
    match tag with
    | none => posts
    | some t =>
        if t = "" then posts
        else
          posts.filter (fun p =>
            ((normalizeTags p.tags).map jsLower).contains (jsLower t))
  let filtered := applyFilter tagged searchValue
  [Effect.fetchIndex CacheMode.browserDefault,
   Effect.renderChips (tagbarChips posts),
   Effect.renderCards filtered,
   Effect.setCount filtered.length,
   Effect.beacon path]

/-- Modelled from the spec: the Pagination Controller (spec §4.6); no
pagination code exists under `src/`. Fixed page size of 12. -/
def pageSize : Nat := 12

/-- Modelled from the spec: `totalPages = max(1, ceil(total / pageSize))`. -/
def totalPages (total : Nat) : Nat :=
  max 1 ((total + pageSize - 1) / pageSize)

/-- Modelled from the spec: the requested page clamped into
`[1, totalPages]`. -/
def clampPage (req total : Nat) : Nat :=
  min (max req 1) (totalPages total)

/-- Modelled from the spec: the `page` URL parameter persisted after
clamping — removed entirely when the (clamped) page is 1. -/
def pageUrlParam (req total : Nat) : Option Nat :=
  if clampPage req total = 1 then none else some (clampPage req total)

/-! ## Supporting lemmas -/

/-- `findSub` misses exactly when the needle occurs at no offset. -/
theorem findSub_none_iff (needle hay : List Char)
    (hne : needle.isEmpty = false) :
    findSub hay needle = none ↔
      ∀ i, needle.isPrefixOf (hay.drop i) = false := by
  induction hay with
  | nil =>
      simp only [findSub, hne, List.drop_nil]
      constructor
      · intro _ i
        cases needle with
        | nil => cases hne
        | cons n ns => rfl
      · intro _
        rfl
  | cons c cs ih =>
      simp only [findSub]
      cases hp : needle.isPrefixOf (c :: cs) with
      | true =>
          constructor
          · intro hcon
            simp at hcon
          · intro hall
            have h0 := hall 0
            rw [List.drop_zero, hp] at h0
            exact absurd h0 (by decide)
      | false =>
          constructor
          · intro hcon i
            have hcs : findSub cs needle = none := by
              simpa using hcon
            cases i with
            | zero => rw [List.drop_zero]; exact hp
            | succ j =>
                have hj := (ih.mp hcs) j
                rwa [List.drop_succ_cons]
          · intro hall
            have hcs : findSub cs needle = none :=
              ih.mpr (fun i => by
                have hi := hall (i + 1)
                rwa [List.drop_succ_cons] at hi)
            simp [hcs]

/-- Whether a frontmatter line stores an entry under the key `k`. -/
def lineDefines (l : String) (k : String) : Bool :=
  match lineEntry l with
  | some e => e.1 == k
  | none => false

/-- Reading back the key just written returns the written value. -/
theorem objGet_objSet_self (m : FmMeta) (k : String) (v : FmValue) :
    objGet (objSet m k v) k = some v := by
  induction m with
  | nil => simp [objSet, objGet]
  | cons e rest ih =>
      obtain ⟨k', v'⟩ := e
      unfold objSet
      by_cases h : k' = k
      · simp [h, objGet]
      · simp [h, objGet, ih]

/-- Writing a different key leaves a key's lookup unchanged. -/
theorem objGet_objSet_ne (m : FmMeta) (k k' : String) (v : FmValue)
    (h : k' ≠ k) :
    objGet (objSet m k' v) k = objGet m k := by
  induction m with
  | nil => simp [objSet, objGet, h]
  | cons e rest ih =>
      obtain ⟨k2, v2⟩ := e
      unfold objSet
      by_cases h2 : k2 = k'
      · subst h2
        simp [objGet, h]
      · rw [if_neg h2]
        by_cases h3 : k2 = k
        · subst h3
          simp [objGet]
        · simp [objGet, h3, ih]

/-- Folding lines none of which defines `k` leaves `k`'s lookup alone. -/
theorem objGet_foldl_no_key (k : String) (lines : List String) (m : FmMeta)
    (h : ∀ l ∈ lines, lineDefines l k = false) :
    objGet (lines.foldl parseLine m) k = objGet m k := by
  induction lines generalizing m with
  | nil => rfl
  | cons l rest ih =>
      rw [List.foldl_cons]
      rw [ih _ (fun l' hl' => h l' (List.mem_cons_of_mem _ hl'))]
      unfold parseLine
      cases he : lineEntry l with
      | none => rfl
      | some e =>
          obtain ⟨k', v'⟩ := e
          have hd := h l (List.mem_cons_self _ _)
          unfold lineDefines at hd
          rw [he] at hd
          exact objGet_objSet_ne m k k' v' (by simpa using hd)

/-- A trimmed value of the exact shape `[` … `]` passes the bracket test. -/
theorem bracketed_append (inner : String) :
    bracketed ("[" ++ inner ++ "]") = true := by
  unfold bracketed
  have hdata : ("[" ++ inner ++ "]").data = '[' :: (inner.data ++ [']']) := by
    simp
  rw [hdata]
  rw [show ('[' :: (inner.data ++ [']'])).getLast? = some ']' by
    rw [show ('[' :: (inner.data ++ [']'])) = ('[' :: inner.data) ++ [']'] by
      simp]
    exact List.getLast?_concat _]
  rfl

/-- Slicing the brackets off and splitting gives the trimmed non-empty
comma-separated elements. -/
theorem parseListVal_append (inner : String) :
    parseListVal ("[" ++ inner ++ "]")
      = ((jsSplit inner ',').map jsTrim).filter (· ≠ "") := by
  unfold parseListVal
  have hdata : ("[" ++ inner ++ "]").data = '[' :: (inner.data ++ [']']) := by
    simp
  rw [hdata, List.drop_one, List.tail_cons, List.dropLast_concat]

/-- Trimming is idempotent on character lists. -/
theorem trimL_idem (l : List Char) : trimL (trimL l) = trimL l := by
  show List.rdropWhile Char.isWhitespace
      (List.dropWhile Char.isWhitespace
        (List.rdropWhile Char.isWhitespace
          (List.dropWhile Char.isWhitespace l)))
    = List.rdropWhile Char.isWhitespace (List.dropWhile Char.isWhitespace l)
  obtain ⟨t, ht⟩ :=
    List.rdropWhile_prefix Char.isWhitespace
      (List.dropWhile Char.isWhitespace l)
  cases hB : List.rdropWhile Char.isWhitespace
      (List.dropWhile Char.isWhitespace l) with
  | nil =>
      simp
  | cons b bs =>
      have hAne : List.dropWhile Char.isWhitespace l = b :: (bs ++ t) := by
        rw [← ht, hB]
        rfl
      have hb : ¬ Char.isWhitespace b = true := by
        have hne : List.dropWhile Char.isWhitespace l ≠ [] := by
          rw [hAne]
          exact List.cons_ne_nil _ _
        have hh := List.head_dropWhile_not Char.isWhitespace l hne
        rw [show (List.dropWhile Char.isWhitespace l).head hne = b by
          simp [hAne]] at hh
        simp [hh]
      rw [List.dropWhile_cons, if_neg hb, ← hB,
        List.rdropWhile_idempotent]

/-- String-level trim idempotence. -/
theorem jsTrim_idem (s : String) : jsTrim (jsTrim s) = jsTrim s := by
  show String.mk (trimL (String.mk (trimL s.data)).data)
    = String.mk (trimL s.data)
  rw [show (String.mk (trimL s.data)).data = trimL s.data from rfl,
    trimL_idem]

/-! ## Claim theorems -/

/-- C1: the Pagination Controller (modelled from the spec; no pagination
code exists under `src/`) computes `totalPages = max(1, ceil(total/12))`
— i.e. the least page count `n ≥ 1` with `total ≤ n * 12` — clamps a
requested page exceeding it to `totalPages`, persists the clamped value
to the URL, and in particular: total = 25 with requested page 5 yields
current page 3 with the URL showing `page=3`, while requested page 1
removes the page parameter. -/
theorem c1_pagination_clamps_and_persists (total req : Nat)
    (h : totalPages total < req) :
    clampPage req total = totalPages total
    ∧ pageUrlParam req total =
        (if totalPages total = 1 then none else some (totalPages total))
    ∧ (1 ≤ totalPages total ∧ total ≤ totalPages total * pageSize
        ∧ ∀ n, 1 ≤ n → total ≤ n * pageSize → totalPages total ≤ n)
    ∧ (totalPages 25 = 3 ∧ clampPage 5 25 = 3
        ∧ pageUrlParam 5 25 = some 3 ∧ pageUrlParam 1 25 = none) := by
  have h1 : 1 ≤ totalPages total := le_max_left _ _
  have hclamp : clampPage req total = totalPages total := by
    unfold clampPage
    rw [Nat.max_eq_left (le_trans h1 (le_of_lt h))]
    exact Nat.min_eq_right (le_of_lt h)
  refine ⟨hclamp, ?_, ⟨h1, ?_, ?_⟩, by decide⟩
  · unfold pageUrlParam
    rw [hclamp]
  · unfold totalPages pageSize
    omega
  · intro n hn hns
    unfold totalPages pageSize at *
    omega

/-- C1 witness: at total = 25 and requested page 5 the hypothesis holds
and the clamped page is 3. -/
theorem c1_pagination_witness :
    totalPages 25 < 5 ∧ clampPage 5 25 = totalPages 25 :=
  ⟨by decide, (c1_pagination_clamps_and_persists 25 5 (by decide)).1⟩

/-- C2: when the raw document does not start with the `---` delimiter,
or when no closing delimiter (an occurrence of newline-then-`---`, i.e.
a later line starting with `---`) exists at any offset `≥ 3` after the
opening, `parseFrontmatter` returns empty metadata and the original
text as the body, unchanged — no partial parse. -/
theorem c2_frontmatter_no_partial_parse (md : String)
    (h : "---".data.isPrefixOf md.data = false
      ∨ ∀ i, 3 ≤ i → "\n---".data.isPrefixOf (md.data.drop i) = false) :
    parseFrontmatter md = ([], md) := by
  by_cases hp : "---".data.isPrefixOf md.data = false
  · unfold parseFrontmatter
    rw [hp]
    simp
  · have hall : ∀ i, 3 ≤ i → "\n---".data.isPrefixOf (md.data.drop i) = false := by
      cases h with
      | inl h => exact absurd h hp
      | inr h => exact h
    have hnone : findSubFrom md.data "\n---".data 3 = none := by
      unfold findSubFrom
      have hsub : findSub (md.data.drop 3) "\n---".data = none := by
        rw [findSub_none_iff _ _ (by decide)]
        intro i
        rw [List.drop_drop]
        exact hall (3 + i) (by omega)
      rw [hsub]
      rfl
    unfold parseFrontmatter
    rw [hnone]
    have hp' : "---".data.isPrefixOf md.data = true := by
      cases hb : "---".data.isPrefixOf md.data with
      | false => exact absurd hb hp
      | true => rfl
    rw [hp']
    simp

/-- C2 witness: a document with no leading delimiter parses to empty
metadata and its own text. -/
theorem c2_frontmatter_witness :
    ("---".data.isPrefixOf "hello world".data = false)
    ∧ parseFrontmatter "hello world" = ([], "hello world") :=
  ⟨by decide, c2_frontmatter_no_partial_parse "hello world"
    (Or.inl (by decide))⟩

/-- C3: inside a frontmatter block, (a) when a line stores key `k` with
value `v` and no later line stores `k`, the final metadata maps `k` to
`v` (last write wins); (b) a line without a colon is skipped; (c) a line
whose trimmed value is wrapped in square brackets stores the list
obtained by splitting the inside on commas, trimming each element and
dropping the empty ones; and (d), end to end, a duplicate bracket-valued
key resolves to the last occurrence's list. -/
theorem c3_frontmatter_keys (m : FmMeta) (pre post : List String)
    (line : String) (k : String) (v : FmValue)
    (hline : lineEntry line = some (k, v))
    (hpost : ∀ l ∈ post, lineDefines l k = false) :
    objGet ((pre ++ line :: post).foldl parseLine m) k = some v
    ∧ (∀ (m' : FmMeta) (l : String),
        l.data.findIdx? (· = ':') = none → parseLine m' l = m')
    ∧ (∀ (l : String) (idx : Nat) (k' inner : String),
        l.data.findIdx? (· = ':') = some idx →
        jsTrim (String.mk (l.data.take idx)) = k' →
        jsTrim (String.mk (l.data.drop (idx + 1))) = "[" ++ inner ++ "]" →
        lineEntry l = some (k', FmValue.list
          (((jsSplit inner ',').map jsTrim).filter (· ≠ ""))))
    ∧ parseFrontmatter "---\nt: [a, b]\nt: [c]\nx\n---\nbody"
        = ([("t", FmValue.list ["c"])], "body") := by
  refine ⟨?_, ?_, ?_, by decide⟩
  · rw [List.foldl_append, List.foldl_cons]
    rw [objGet_foldl_no_key k post _ hpost]
    unfold parseLine
    rw [hline]
    exact objGet_objSet_self _ k v
  · intro m' l hnone
    unfold parseLine lineEntry
    rw [hnone]
  · intro l idx k' inner hidx hk hv
    unfold lineEntry
    rw [hidx]
    simp only [hk, hv, bracketed_append, parseListVal_append, if_true]

/-- C3 witness: with an earlier `t: [a, b]` line, a later `t: [c]` line
and a trailing colon-less line, the key `t` resolves to `["c"]`. -/
theorem c3_frontmatter_witness :
    lineEntry "t: [c]" = some ("t", FmValue.list ["c"])
    ∧ objGet ((["t: [a, b]"] ++ "t: [c]" :: ["x"]).foldl parseLine []) "t"
        = some (FmValue.list ["c"]) :=
  ⟨by decide,
    (c3_frontmatter_keys [] ["t: [a, b]"] ["x"] "t: [c]" "t"
      (FmValue.list ["c"]) (by decide) (by decide)).1⟩

/-- C4 counterexample: `normalizeTags` returns an array input unchanged,
so on the concrete input `[" a ", ""]` its output contains an untrimmed
element and an empty element — refuting the claim that every output is
an ordered list of trimmed, non-empty strings. -/
theorem c4_normalize_counterexample :
    normalizeTags (TagsInput.list [" a ", ""]) = [" a ", ""]
    ∧ ¬ (∀ t ∈ normalizeTags (TagsInput.list [" a ", ""]),
          jsTrim t = t ∧ t ≠ "") := by
  refine ⟨rfl, fun h => ?_⟩
  have hm := h "" (by decide)
  exact hm.2 rfl

/-- C4 (amended): `normalizeTags` is idempotent on every input
(`normalize(normalize(x)) = normalize(x)`), and for an absent or scalar
(possibly comma-separated) input it returns trimmed, non-empty strings
in left-to-right split order — but an array input is returned unchanged,
without re-trimming or dropping empty elements. -/
theorem c4_normalize_amended :
    (∀ x, normalizeTags (TagsInput.list (normalizeTags x)) = normalizeTags x)
    ∧ (∀ s, ∀ t ∈ normalizeTags (TagsInput.scalar s),
        jsTrim t = t ∧ t ≠ "")
    ∧ (∀ l, normalizeTags (TagsInput.list l) = l)
    ∧ normalizeTags TagsInput.undef = [] := by
  refine ⟨fun x => rfl, ?_, fun l => rfl, rfl⟩
  intro s t ht
  simp only [normalizeTags] at ht
  by_cases hs : s = ""
  · rw [if_pos hs] at ht
    cases ht
  · rw [if_neg hs] at ht
    obtain ⟨hmem, hne⟩ := List.mem_filter.mp ht
    obtain ⟨u, _, hu⟩ := List.mem_map.mp hmem
    refine ⟨?_, of_decide_eq_true hne⟩
    rw [← hu, jsTrim_idem]

/-- C4 witness: the amended theorem applied to the comma-separated
scalar `" a , ,b"`, whose normalization is `["a", "b"]`, each element
trimmed and non-empty. -/
theorem c4_normalize_witness :
    normalizeTags (TagsInput.scalar " a , ,b") = ["a", "b"]
    ∧ (jsTrim "a" = "a" ∧ "a" ≠ "") :=
  ⟨by decide, c4_normalize_amended.2.1 " a , ,b" "a" (by decide)⟩

/-- The empty needle occurs in every haystack (JS `includes('')`). -/
theorem jsIncludes_empty_needle (h : String) : jsIncludes h "" = true := by
  unfold jsIncludes
  cases h.data with
  | nil => rfl
  | cons c cs => rfl

/-- A sample post used by concrete witnesses. -/
def samplePost : Post :=
  { title := "Alpha Post", excerpt := some "Beta text",
    tags := TagsInput.list ["x"], slug := "alpha" }

/-- C5: the search filter returns exactly the posts whose space-joined
title/excerpt/normalized-tags haystack contains the (trimmed) query as a
case-insensitive substring, and an empty or whitespace-only query leaves
the collection unchanged rather than matching nothing. -/
theorem c5_search_filter (posts : List Post) (q : String) :
    (jsTrim q = "" → applyFilter posts q = posts)
    ∧ ∀ p, p ∈ applyFilter posts q ↔
        p ∈ posts ∧
          jsIncludes (jsLower (postHay p)) (jsLower (jsTrim q)) = true := by
  constructor
  · intro h
    unfold applyFilter
    rw [h]
    rfl
  · intro p
    unfold applyFilter
    by_cases hq : jsLower (jsTrim q) = ""
    · rw [hq]
      simp [jsIncludes_empty_needle]
    · rw [if_neg hq]
      rw [List.mem_filter]

/-- C5 witness: a whitespace-only query is a no-op on a one-post list. -/
theorem c5_search_witness :
    jsTrim "   " = "" ∧ applyFilter [samplePost] "   " = [samplePost] :=
  ⟨by decide, (c5_search_filter [samplePost] "   ").1 (by decide)⟩

/-- Total count recorded for key `k` in a count-entry list. -/
def countOf (k : String) (l : List (String × Nat)) : Nat :=
  ((l.filter (fun e => e.1 = k)).map (fun e => e.2)).sum

/-- The multiset of normalized tags over a post collection, in order. -/
def allTags (posts : List Post) : List String :=
  ((posts.map (fun p => normalizeTags p.tags)).flatten)

/-- `countOf` over a cons cell carrying the key itself. -/
theorem countOf_cons_self (k : String) (c : Nat)
    (l : List (String × Nat)) :
    countOf k ((k, c) :: l) = c + countOf k l := by
  simp [countOf, List.filter_cons]

/-- `countOf` over a cons cell carrying a different key. -/
theorem countOf_cons_ne (k k2 : String) (c : Nat)
    (l : List (String × Nat)) (h : k2 ≠ k) :
    countOf k ((k2, c) :: l) = countOf k l := by
  simp [countOf, List.filter_cons, h]

/-- `bump` adds one to its key's count. -/
theorem countOf_bump_self (m : List (String × Nat)) (k : String) :
    countOf k (bump m k) = countOf k m + 1 := by
  induction m with
  | nil =>
      rw [show bump [] k = [(k, 1)] from rfl, countOf_cons_self]
      simp [countOf]
  | cons a rest ih =>
      obtain ⟨k2, c⟩ := a
      unfold bump
      by_cases h : k2 = k
      · subst h
        rw [if_pos rfl, countOf_cons_self, countOf_cons_self]
        omega
      · rw [if_neg h, countOf_cons_ne _ _ _ _ h, countOf_cons_ne _ _ _ _ h,
          ih]

/-- `bump` on another key leaves a key's count unchanged. -/
theorem countOf_bump_ne (m : List (String × Nat)) (k k' : String)
    (h : k' ≠ k) :
    countOf k (bump m k') = countOf k m := by
  induction m with
  | nil =>
      rw [show bump [] k' = [(k', 1)] from rfl, countOf_cons_ne _ _ _ _ h]
  | cons a rest ih =>
      obtain ⟨k2, c⟩ := a
      unfold bump
      by_cases h2 : k2 = k'
      · subst h2
        rw [if_pos rfl, countOf_cons_ne _ _ _ _ h, countOf_cons_ne _ _ _ _ h]
      · rw [if_neg h2]
        by_cases h3 : k2 = k
        · subst h3
          rw [countOf_cons_self, countOf_cons_self, ih]
        · rw [countOf_cons_ne _ _ _ _ h3, countOf_cons_ne _ _ _ _ h3, ih]

/-- Folding `bump` over a tag list adds each tag's multiplicity. -/
theorem countOf_foldl_bump (ts : List String) (m : List (String × Nat))
    (k : String) :
    countOf k (ts.foldl bump m) = countOf k m + ts.count k := by
  induction ts generalizing m with
  | nil => simp
  | cons t rest ih =>
      rw [List.foldl_cons, ih, List.count_cons]
      by_cases h : t = k
      · subst h
        rw [countOf_bump_self]
        simp
        omega
      · rw [countOf_bump_ne _ _ _ h]
        simp [h]

/-- The pre-sort count map records exactly the tag multiplicities. -/
theorem countOf_tagCountsMap (posts : List Post) (k : String) :
    countOf k (tagCountsMap posts) = (allTags posts).count k := by
  unfold tagCountsMap
  suffices h : ∀ m, countOf k
      (posts.foldl (fun m p => (normalizeTags p.tags).foldl bump m) m)
      = countOf k m + (allTags posts).count k by
    simpa [countOf] using h []
  induction posts with
  | nil => simp [allTags]
  | cons p rest ih =>
      intro m
      rw [List.foldl_cons, ih, countOf_foldl_bump]
      simp [allTags, List.count_append]
      omega

/-- `countOf` is invariant under permutation of the entry list. -/
theorem countOf_perm (k : String) {l₁ l₂ : List (String × Nat)}
    (h : l₁.Perm l₂) : countOf k l₁ = countOf k l₂ :=
  ((h.filter _).map _).sum_eq

/-- Sorting does not change the counts: `buildTagCounts` records exactly
the multiplicity of every tag. -/
theorem countOf_buildTagCounts (posts : List Post) (k : String) :
    countOf k (buildTagCounts posts) = (allTags posts).count k := by
  unfold buildTagCounts
  rw [countOf_perm k (List.mergeSort_perm _ _)]
  exact countOf_tagCountsMap posts k

/-- The two-post collection of the C6 example. -/
def samplePosts : List Post :=
  [{ title := "p1", excerpt := none,
     tags := TagsInput.list ["a", "a", "b"], slug := "1" },
   { title := "p2", excerpt := none,
     tags := TagsInput.list ["b", "c"], slug := "2" }]

/-- C6: `buildTagCounts` counts each normalized tag case-sensitively,
once per occurrence (so the `[a,a,b]`/`[b,c]` collection counts
`a:2, b:2, c:1` exactly), returns entries sorted by descending count,
and the tag bar surfaces at most 12 of them after the always-first
all-posts chip. -/
theorem c6_tag_aggregation (posts : List Post) (k : String) :
    countOf k (buildTagCounts posts) = (allTags posts).count k
    ∧ List.Pairwise (fun a b => b.2 ≤ a.2) (buildTagCounts posts)
    ∧ (tagbarChips posts).head? = some Chip.all
    ∧ (tagbarChips posts).tail.length ≤ 12
    ∧ countOf "a" (buildTagCounts samplePosts) = 2
    ∧ countOf "b" (buildTagCounts samplePosts) = 2
    ∧ countOf "c" (buildTagCounts samplePosts) = 1 := by
  refine ⟨countOf_buildTagCounts posts k, ?_, rfl, ?_, ?_, ?_, ?_⟩
  · have hs := @List.sorted_mergeSort (String × Nat)
      (fun a b => Nat.ble b.2 a.2)
      (fun a b c hab hbc => by
        rw [Nat.ble_eq] at hab hbc ⊢
        omega)
      (fun a b => by
        rcases Nat.le_total a.2 b.2 with h | h
        · have : Nat.ble b.2 a.2 = true ∨ Nat.ble a.2 b.2 = true :=
            Or.inr (by rw [Nat.ble_eq]; exact h)
          simpa [Bool.or_eq_true] using this
        · have : Nat.ble b.2 a.2 = true ∨ Nat.ble a.2 b.2 = true :=
            Or.inl (by rw [Nat.ble_eq]; exact h)
          simpa [Bool.or_eq_true] using this)
      (tagCountsMap posts)
    exact hs.imp (fun hab => by rwa [Nat.ble_eq] at hab)
  · show (((buildTagCounts posts).take 12).map _).length ≤ 12
    rw [List.length_map, List.length_take]
    exact min_le_left _ _
  · rw [countOf_buildTagCounts]
    decide
  · rw [countOf_buildTagCounts]
    decide
  · rw [countOf_buildTagCounts]
    decide

/-- C7 counterexample: the latest `loadIndex` issues its fetch with the
browser-default cache mode (no `cache: 'no-store'` option), so the
retrieval does not bypass the HTTP cache. -/
theorem c7_cache_counterexample :
    loadIndexRequest.cache = CacheMode.browserDefault
    ∧ CacheMode.browserDefault ≠ CacheMode.noStore :=
  ⟨rfl, by decide⟩

/-- C7 (amended): the index retrieval is issued once (no retry) with the
browser-default cache mode — it may be served from a cache — and the
provider fails with a `LoadError` exactly when the response status is
not ok or the payload cannot be parsed as structured data. -/
theorem c7_load_index_amended :
    (∀ r : IndexResponse,
        loadIndex r = Except.error LoadError.indexLoadFailed
          ↔ (r.ok = false ∨ r.payload = none))
    ∧ loadIndexRequests.length = 1
    ∧ loadIndexRequest.cache = CacheMode.browserDefault := by
  refine ⟨?_, rfl, rfl⟩
  intro r
  obtain ⟨ok, payload⟩ := r
  cases ok with
  | false => simp [loadIndex]
  | true =>
      cases payload with
      | none => simp [loadIndex]
      | some p => simp [loadIndex]

/-- C8: entering the post view without a post identifier renders the
"no post specified" notice and issues no document retrieval; a failed
document retrieval renders the "failed to load" notice after exactly
the single fetch, with no further work and no retry. -/
theorem c8_post_page_errors (resp : String → DocResponse)
    (render fmtD : String → String) (s : String)
    (hs : s ≠ "") (hfail : (resp s).ok = false) :
    pagePost none resp render fmtD = [Effect.notice noticeNoPost]
    ∧ (∀ sl ca, Effect.fetchDoc sl ca ∉ pagePost none resp render fmtD)
    ∧ pagePost (some s) resp render fmtD
        = [Effect.fetchDoc s CacheMode.browserDefault,
           Effect.notice noticeLoadFailed] := by
  refine ⟨rfl, ?_, ?_⟩
  · intro sl ca h
    simp [pagePost] at h
  · simp only [pagePost]
    rw [if_neg hs, if_pos hfail]

/-- C8 witness: a concrete failing retrieval for slug `welcome` yields
exactly the fetch then the failure notice. -/
theorem c8_post_page_witness :
    pagePost (some "welcome") (fun _ => { ok := false, body := "" }) id id
      = [Effect.fetchDoc "welcome" CacheMode.browserDefault,
         Effect.notice noticeLoadFailed] :=
  (c8_post_page_errors (fun _ => { ok := false, body := "" }) id id
    "welcome" (by decide) rfl).2.2

/-- C9 counterexample: a concrete successful post-page load (the fetch
succeeds and the title is populated from the frontmatter) whose effect
trace contains no Navigation Beacon at all. -/
theorem c9_beacon_counterexample :
    ((pagePost (some "welcome")
        (fun _ => { ok := true, body := "---\ntitle: Hi\n---\nBody" })
        id id).contains (Effect.setTitle "Hi")) = true
    ∧ ((pagePost (some "welcome")
        (fun _ => { ok := true, body := "---\ntitle: Hi\n---\nBody" })
        id id).all fun e => !(e.isBeacon)) = true := by
  refine ⟨by decide, by decide⟩

/-- C9 (amended): the Navigation Beacon — carrying the current path —
is fired by the Index Page Controller at the end of every index-page
load; the Post Page Controller never fires it on any of its paths. -/
theorem c9_beacon_amended (path : String) (idx : IndexPayload)
    (tag : Option String) (searchValue : String) (slug : Option String)
    (resp : String → DocResponse) (render fmtD : String → String) :
    Effect.beacon path ∈ pageIndexTrace path idx tag searchValue
    ∧ ((pagePost slug resp render fmtD).all fun e => !(e.isBeacon))
        = true := by
  constructor
  · simp [pageIndexTrace]
  · cases slug with
    | none => rfl
    | some s =>
        simp only [pagePost]
        by_cases hs : s = ""
        · rw [if_pos hs]
          rfl
        · rw [if_neg hs]
          by_cases hok : (resp s).ok = false
          · rw [if_pos hok]
            rfl
          · rw [if_neg hok]
            rfl

/-- A concrete post without an excerpt, used by the C10 refutation. -/
def alphaPost : Post :=
  { title := "alpha", excerpt := none,
    tags := TagsInput.list [], slug := "a" }

/-- C10 counterexample: a concrete post with no excerpt whose haystack
is `"alpha  "` — the missing excerpt joins as the empty string, not as
the text `undefined` — so the query `undefined` fails to match it. -/
theorem c10_undefined_counterexample :
    postHay alphaPost = "alpha  "
    ∧ jsIncludes (jsLower (postHay alphaPost)) "undefined" = false
    ∧ applyFilter [alphaPost] "undefined" = [] :=
  ⟨by decide, by decide, by decide⟩

/-- C10 (amended): for every post whose excerpt is absent, the haystack
joins the empty string in the excerpt position — title, two adjacent
spaces, then the space-joined normalized tags — so the query
`undefined` matches such a post only if its other fields contain it. -/
theorem c10_missing_excerpt_amended (p : Post) (h : p.excerpt = none) :
    postHay p = p.title ++ "  " ++ jsJoin " " (normalizeTags p.tags) := by
  unfold postHay jsJoin
  rw [h]
  apply String.ext
  simp [List.intersperse, String.data_append]

/-- C10 witness: the amended haystack shape at a concrete excerpt-less
post with two tags. -/
theorem c10_missing_excerpt_witness :
    postHay { title := "gamma", excerpt := none,
              tags := TagsInput.list ["t1", "t2"], slug := "g" }
      = "gamma" ++ "  "
          ++ jsJoin " " (normalizeTags (TagsInput.list ["t1", "t2"])) :=
  c10_missing_excerpt_amended _ rfl

end BlogJs
